import Mathlib

/-
Verification of the `custom::unordered_set` hash-set of src/hash.h (LabHash).

Shallow embedding conventions:
- `custom::vector<custom::list<T>> buckets` is a `List (List T)`;
- `size_t` values are `Nat`; the `int numElements` field is a `Nat` (it is
  non-negative in every reachable state and is read back through the
  `size_t size()` accessor);
- `float maxLoadFactor` is carried exactly as a rational number `ℚ`;
- the injected `Hash` policy is a function `hash : T → Nat` (models
  `Hash()(t)`), and the injected `EqPred` policy is definitional equality
  with a `DecidableEq` instance (models the default `std::equal_to<T>`);
- iterators are positional: a global iterator is either default-constructed
  (`iterator()`, whose member iterators are null) or a pair of a bucket
  index `itVector` (with `buckets.length` playing the role of the
  `itVectorEnd` marker `buckets.end()`) and an index `itList` into that
  bucket (with the bucket's length playing the role of the list `end()`).

Crucially, in the source file the bodies of `unordered_set::insert` and
`unordered_set::erase` are commented out: the executable code of `insert`
is only `return pair(iterator(), true);` and the executable code of
`erase` is only `return iterator();`.  The embedding reproduces exactly
that executable code.
-/

set_option linter.unusedVariables false

namespace custom

variable {T : Type}

/-- Model of `unordered_set<T>::iterator`: `dflt` is the default-constructed
iterator `iterator()` (null member iterators); `mk itVector itList` is an
iterator into the owning container, holding the bucket index and the index
inside that bucket, with `itVector = buckets.length` standing for the
`itVectorEnd` marker. -/
inductive iterator where
  | dflt : iterator
  | mk (itVector : Nat) (itList : Nat) : iterator
deriving DecidableEq

/-- Model of `unordered_set<T>::local_iterator`: just a position in one
bucket's list. -/
structure local_iterator where
  itList : Nat
deriving DecidableEq

/-- Model of `custom::unordered_set<T>`: the fields `buckets`,
`numElements` and `maxLoadFactor` of src/hash.h lines 209-211. -/
structure unordered_set (T : Type) where
  buckets : List (List T)
  numElements : Nat
  maxLoadFactor : ℚ
deriving DecidableEq

/-- The default constructor: `numElements(0), maxLoadFactor(1.0), buckets(8)`. -/
def unordered_set.mkDefault (T : Type) : unordered_set T :=
  ⟨List.replicate 8 [], 0, 1⟩

/-- size(): returns `numElements`. -/
def unordered_set.size (s : unordered_set T) : Nat :=
  s.numElements

/-- bucket_count(): returns `buckets.size()`. -/
def unordered_set.bucket_count (s : unordered_set T) : Nat :=
  s.buckets.length

/-- bucket(t): `Hash()(t) % bucket_count()`. -/
def unordered_set.bucket (hash : T → Nat) (s : unordered_set T) (t : T) : Nat :=
  hash t % s.bucket_count

/-- load_factor(): the source computes `size() / bucket_count()` where both
operands are `size_t`, so the division is truncating integer division; only
the resulting integer quotient is converted (exactly) to `float`.  The model
returns the rational image of that integer quotient. -/
def unordered_set.load_factor (s : unordered_set T) : ℚ :=
  ((s.size / s.bucket_count : Nat) : ℚ)

/-- min_buckets_required(num): `(size_t)std::ceil(num / maxLoadFactor)` with
`num` converted to floating point for the division. -/
def unordered_set.min_buckets_required (s : unordered_set T) (num : Nat) : Nat :=
  (⌈(num : ℚ) / s.maxLoadFactor⌉).toNat

/-- end(): `iterator(buckets.end(), buckets.end(), buckets[0].end())`, i.e.
bucket position at the end marker and list position at the end of bucket 0. -/
def unordered_set.endIter (s : unordered_set T) : iterator :=
  iterator.mk s.bucket_count (s.buckets.getD 0 []).length

/-- Modelled from the spec: `custom::list<T>::find` (list.h is a collaborator
file not under src/); per the spec it is the bucket sequence's
equality-predicate-based find, returning the position of the first element
equal to `t`, or the list's end (modelled as `none`). -/
def listFind [DecidableEq T] (l : List T) (t : T) : Option Nat :=
  l.findIdx? (fun x => decide (x = t))

/-- find(t): compute `iBucket = bucket(t)`, search that one bucket with the
list's find, and either wrap the hit position in an iterator or return
end(). -/
def unordered_set.find (hash : T → Nat) [DecidableEq T]
    (s : unordered_set T) (t : T) : iterator :=
  let iBucket := hash t % s.bucket_count
  match listFind (s.buckets.getD iBucket []) t with
  | some j => iterator.mk iBucket j
  | none => s.endIter

/-- insert(t) as it executes in src/hash.h lines 393-407: the whole intended
body is commented out and the function only performs
`return pair(iterator(), true);`, leaving `*this` untouched.  The result is
(state of the container after the call, returned iterator, returned flag). -/
def unordered_set.insert (s : unordered_set T) (t : T) :
    unordered_set T × iterator × Bool :=
  (s, iterator.dflt, true)

/-- erase(t) as it executes in src/hash.h lines 375-387: the whole intended
body is commented out and the function only performs `return iterator();`,
leaving `*this` untouched.  The result is (state after the call, returned
iterator). -/
def unordered_set.erase (s : unordered_set T) (t : T) :
    unordered_set T × iterator :=
  (s, iterator.dflt)

/-- A sequence of insert calls, threading the container state. -/
def unordered_set.insertList (s : unordered_set T) (l : List T) : unordered_set T :=
  l.foldl (fun s t => (s.insert t).1) s

/-- Append `e` to the end of bucket `i`: `newBuckets[newIndex].push_back(...)`.
Out-of-range indices leave the array unchanged (they cannot arise: the index
is a remainder modulo the array length). -/
def pushAt : List (List T) → Nat → T → List (List T)
  | [], _, _ => []
  | b :: bs, 0, e => (b ++ [e]) :: bs
  | b :: bs, i + 1, e => b :: pushAt bs i e

/-- The redistribution loop of rehash: for every element `e`, in bucket order
and then in-bucket order, push `e` to the back of bucket `hash e % n` of the
accumulator array. -/
def placeAll (hash : T → Nat) (n : Nat) (l : List T) (bs : List (List T)) :
    List (List T) :=
  l.foldl (fun acc e => pushAt acc (hash e % n) e) bs

/-- rehash(numBuckets), src/hash.h lines 417-437: return immediately unless
`numBuckets > bucket_count()`; otherwise build a fresh array of `numBuckets`
empty buckets, move every element into bucket `Hash()(e) % numBuckets` of
it, and replace the bucket array.  `numElements` is not touched. -/
def unordered_set.rehash (hash : T → Nat) (s : unordered_set T)
    (numBuckets : Nat) : unordered_set T :=
  if numBuckets ≤ s.bucket_count then s
  else
    { s with
      buckets := placeAll hash numBuckets s.buckets.flatten
        (List.replicate numBuckets []) }

/-- reserve(num): `rehash(min_buckets_required(num))`. -/
def unordered_set.reserve (hash : T → Nat) (s : unordered_set T)
    (num : Nat) : unordered_set T :=
  s.rehash hash (s.min_buckets_required num)

/-- The while loop of `iterator::operator++`: starting at bucket index `i`,
advance while the index is not at the end marker and the current bucket is
empty. -/
def skipEmptyFrom (bs : List (List T)) (i : Nat) : Nat :=
  if h : i < bs.length then
    if (bs.getD i []).isEmpty then skipEmptyFrom bs (i + 1) else i
  else i
termination_by bs.length - i

/-- Prefix `operator++` on the global iterator, src/hash.h lines 468-490,
over the bucket array `bs` of the owning container.  A default-constructed
iterator has `itVector == itVectorEnd` (both null member iterators), so the
first guard makes it a no-op as well. -/
def iterator.inc (bs : List (List T)) : iterator → iterator
  | iterator.dflt => iterator.dflt
  | iterator.mk itVector itList =>
    if itVector = bs.length then iterator.mk itVector itList
    else
      let itList' := itList + 1
      if itList' ≠ (bs.getD itVector []).length then iterator.mk itVector itList'
      else
        let itVector' := skipEmptyFrom bs (itVector + 1)
        if itVector' ≠ bs.length then iterator.mk itVector' 0
        else iterator.mk itVector' itList'

/-- The postfix increment of the global iterator, src/hash.h lines 284-289:
it copies itself into `temp`, increments the dummy `int` parameter (named
`pf` here), and returns `temp`.  The result is (returned iterator, state of
the iterator the operator was applied to, final value of the dummy). -/
def iterator.incPost (it : iterator) (pf : Int) : iterator × iterator × Int :=
  let temp := it
  (temp, it, pf + 1)

/-- The postfix increment of the local iterator, src/hash.h lines 361-364:
the body is just `return *this;`.  The result is (returned iterator, state
of the iterator the operator was applied to, final value of the dummy). -/
def local_iterator.incPost (it : local_iterator) (pf : Int) :
    local_iterator × local_iterator × Int :=
  (it, it, pf)

/-- A concrete container over Nat with the identity hash: 8 buckets, the
single element 5 sitting in bucket 5 = 5 % 8, element count 1, max load
factor 1.0. -/
def s5 : unordered_set Nat :=
  ⟨[[], [], [], [], [], [5], [], []], 1, 1⟩

/-- A concrete container over Nat with the identity hash: 8 buckets holding
the 7 elements 0..6 in their home buckets, element count 7, max load
factor 1.0. -/
def s7 : unordered_set Nat :=
  ⟨[[0], [1], [2], [3], [4], [5], [6], []], 7, 1⟩

end custom

namespace custom

variable {T : Type}

theorem pushAt_length (bs : List (List T)) (i : Nat) (e : T) :
    (pushAt bs i e).length = bs.length := by
  induction bs generalizing i with
  | nil => rfl
  | cons b bs ih =>
    cases i with
    | zero => rfl
    | succ i => simp [pushAt, ih]

theorem pushAt_ge (bs : List (List T)) (i : Nat) (e : T) (h : bs.length ≤ i) :
    pushAt bs i e = bs := by
  induction bs generalizing i with
  | nil => rfl
  | cons b bs ih =>
    cases i with
    | zero => simp at h
    | succ i => simp [pushAt, ih i (by simpa using h)]

theorem pushAt_getD_self (bs : List (List T)) (i : Nat) (e : T) (h : i < bs.length) :
    (pushAt bs i e).getD i [] = bs.getD i [] ++ [e] := by
  induction bs generalizing i with
  | nil => simp at h
  | cons b bs ih =>
    cases i with
    | zero => rfl
    | succ i =>
      simpa [pushAt] using ih i (by simpa using h)

theorem pushAt_getD_ne (bs : List (List T)) (i j : Nat) (e : T) (h : j ≠ i) :
    (pushAt bs i e).getD j [] = bs.getD j [] := by
  induction bs generalizing i j with
  | nil => rfl
  | cons b bs ih =>
    cases i with
    | zero =>
      cases j with
      | zero => exact absurd rfl h
      | succ j => rfl
    | succ i =>
      cases j with
      | zero => rfl
      | succ j =>
        simpa [pushAt] using ih i j (by simpa using h)

theorem flatten_pushAt_perm (bs : List (List T)) (i : Nat) (e : T) (h : i < bs.length) :
    (pushAt bs i e).flatten.Perm (e :: bs.flatten) := by
  induction bs generalizing i with
  | nil => simp at h
  | cons b bs ih =>
    cases i with
    | zero =>
      simp only [pushAt, List.flatten_cons, List.append_assoc]
      exact (List.perm_middle).symm.symm.trans (by simpa using List.perm_middle)
    | succ i =>
      simp only [pushAt, List.flatten_cons]
      exact ((ih i (by simpa using h)).append_left b).trans List.perm_middle

theorem placeAll_length (hash : T → Nat) (n : Nat) (l : List T) (bs : List (List T)) :
    (placeAll hash n l bs).length = bs.length := by
  induction l generalizing bs with
  | nil => rfl
  | cons e l ih =>
    simpa [placeAll, pushAt_length] using ih (pushAt bs (hash e % n) e)

theorem placeAll_flatten_perm (hash : T → Nat) (n : Nat) (l : List T)
    (bs : List (List T)) (hb : bs.length = n) (hn : 0 < n) :
    (placeAll hash n l bs).flatten.Perm (l ++ bs.flatten) := by
  induction l generalizing bs with
  | nil => rfl
  | cons e l ih =>
    have hlt : hash e % n < bs.length := by
      rw [hb]
      exact Nat.mod_lt _ hn
    have h1 := ih (pushAt bs (hash e % n) e) (by rw [pushAt_length, hb])
    have h2 : (l ++ (pushAt bs (hash e % n) e).flatten).Perm
        (l ++ (e :: bs.flatten)) :=
      (flatten_pushAt_perm bs (hash e % n) e hlt).append_left l
    exact (h1.trans (h2.trans List.perm_middle)).trans (by simp)

theorem placeAll_placed (hash : T → Nat) (n : Nat) (l : List T)
    (bs : List (List T)) (h : ∀ i e, e ∈ bs.getD i [] → hash e % n = i) :
    ∀ i e, e ∈ (placeAll hash n l bs).getD i [] → hash e % n = i := by
  induction l generalizing bs with
  | nil => exact h
  | cons a l ih =>
    refine ih (pushAt bs (hash a % n) a) ?_
    intro i e he
    by_cases hi : i = hash a % n
    · by_cases hlt : i < bs.length
      · rw [hi] at he hlt
        rw [pushAt_getD_self bs _ a hlt] at he
        rcases List.mem_append.mp he with he2 | he2
        · rw [← hi] at he2
          exact h i e he2
        · rw [List.mem_singleton.mp he2, hi]
      · rw [hi] at he hlt
        rw [pushAt_ge bs _ a (by omega)] at he
        rw [← hi] at he
        exact h i e he
    · rw [pushAt_getD_ne bs _ i a hi] at he
      exact h i e he

theorem getD_replicate_nil (n i : Nat) :
    (List.replicate n ([] : List T)).getD i [] = [] := by
  induction n generalizing i with
  | zero => cases i <;> rfl
  | succ n ih =>
    cases i with
    | zero => rfl
    | succ i => simpa using ih i

theorem flatten_replicate_nil (n : Nat) :
    (List.replicate n ([] : List T)).flatten = [] := by
  induction n with
  | zero => rfl
  | succ n ih => simpa [List.replicate] using ih

theorem mem_flatten_getD (bs : List (List T)) (e : T) :
    e ∈ bs.flatten ↔ ∃ i, e ∈ bs.getD i [] := by
  induction bs with
  | nil =>
    simp only [List.flatten_nil, List.not_mem_nil, false_iff, not_exists]
    intro i
    cases i <;> simp
  | cons b bs ih =>
    simp only [List.flatten_cons, List.mem_append, ih]
    constructor
    · rintro (he | ⟨i, hi⟩)
      · exact ⟨0, by simpa using he⟩
      · exact ⟨i + 1, by simpa using hi⟩
    · rintro ⟨i, hi⟩
      cases i with
      | zero => exact Or.inl (by simpa using hi)
      | succ i => exact Or.inr ⟨i, by simpa using hi⟩

end custom

namespace custom

variable {T : Type}

theorem skipEmptyFrom_stop (bs : List (List T)) (i : Nat) (h : ¬ i < bs.length) :
    skipEmptyFrom bs i = i := by
  rw [skipEmptyFrom.eq_def, dif_neg h]

theorem skipEmptyFrom_hit (bs : List (List T)) (i : Nat) (h : i < bs.length)
    (he : (bs.getD i []).isEmpty = false) :
    skipEmptyFrom bs i = i := by
  rw [skipEmptyFrom.eq_def, dif_pos h, if_neg]
  rw [he]
  simp

theorem skipEmptyFrom_step (bs : List (List T)) (i : Nat) (h : i < bs.length)
    (he : (bs.getD i []).isEmpty = true) :
    skipEmptyFrom bs i = skipEmptyFrom bs (i + 1) := by
  rw [skipEmptyFrom.eq_def, dif_pos h, if_pos]
  rw [he]

theorem skipEmptyFrom_spec (bs : List (List T)) (i : Nat) :
    i ≤ skipEmptyFrom bs i ∧
    (∀ j, i ≤ j → j < skipEmptyFrom bs i → (bs.getD j []).isEmpty = true) ∧
    (skipEmptyFrom bs i < bs.length →
      (bs.getD (skipEmptyFrom bs i) []).isEmpty = false) ∧
    skipEmptyFrom bs i ≤ max i bs.length := by
  have H : ∀ k i, bs.length - i ≤ k →
      i ≤ skipEmptyFrom bs i ∧
      (∀ j, i ≤ j → j < skipEmptyFrom bs i → (bs.getD j []).isEmpty = true) ∧
      (skipEmptyFrom bs i < bs.length →
        (bs.getD (skipEmptyFrom bs i) []).isEmpty = false) ∧
      skipEmptyFrom bs i ≤ max i bs.length := by
    intro k
    induction k with
    | zero =>
      intro i hk
      have h : ¬ i < bs.length := by omega
      rw [skipEmptyFrom_stop bs i h]
      exact ⟨le_rfl, fun j h1 h2 => absurd h2 (by omega),
        fun hlt => absurd hlt h, le_max_left _ _⟩
    | succ k ih =>
      intro i hk
      by_cases h : i < bs.length
      · cases he : (bs.getD i []).isEmpty with
        | false =>
          rw [skipEmptyFrom_hit bs i h he]
          exact ⟨le_rfl, fun j h1 h2 => absurd h2 (by omega),
            fun _ => he, le_max_left _ _⟩
        | true =>
          rw [skipEmptyFrom_step bs i h he]
          obtain ⟨ih1, ih2, ih3, ih4⟩ := ih (i + 1) (by omega)
          refine ⟨by omega, ?_, ih3, by omega⟩
          intro j h1 h2
          rcases Nat.eq_or_lt_of_le h1 with rfl | h1
          · exact he
          · exact ih2 j h1 h2
      · rw [skipEmptyFrom_stop bs i h]
        exact ⟨le_rfl, fun j h1 h2 => absurd h2 (by omega),
          fun hlt => absurd hlt h, le_max_left _ _⟩
  exact H (bs.length - i) i le_rfl

end custom

namespace custom

variable {T : Type}

/-- C9: Advancing a GlobalIterator with the prefix increment follows the
state machine: an iterator already at end (bucket position at the end
marker, which also covers the default-constructed iterator whose null
bucket position equals its null end marker) is unchanged; otherwise it
moves to the next element of the current bucket when one exists; otherwise
to the first element of the next non-empty bucket, skipping the empty
buckets in between; and when no further non-empty bucket exists it reaches
the end state, its bucket position becoming the end marker. -/
theorem iterator_inc_spec (bs : List (List T)) (v l : Nat) :
    iterator.inc bs iterator.dflt = iterator.dflt ∧
    iterator.inc bs (iterator.mk bs.length l) = iterator.mk bs.length l ∧
    (v < bs.length →
      (l + 1 < (bs.getD v []).length →
        iterator.inc bs (iterator.mk v l) = iterator.mk v (l + 1)) ∧
      (l + 1 = (bs.getD v []).length →
        (∀ w, v < w → w < bs.length → bs.getD w [] ≠ [] →
          (∀ j, v < j → j < w → bs.getD j [] = []) →
          iterator.inc bs (iterator.mk v l) = iterator.mk w 0) ∧
        ((∀ j, v < j → j < bs.length → bs.getD j [] = []) →
          iterator.inc bs (iterator.mk v l) = iterator.mk bs.length (l + 1)))) := by
  refine ⟨rfl, by simp [iterator.inc], ?_⟩
  intro hv
  have hvne : ¬ (v = bs.length) := by omega
  constructor
  · intro h1
    simp only [iterator.inc]
    rw [if_neg hvne, if_pos (by omega)]
  · intro h2
    obtain ⟨hge, hbtw, hne, hle⟩ := skipEmptyFrom_spec bs (v + 1)
    constructor
    · intro w hvw hwlen hwne hbetween
      have hule : skipEmptyFrom bs (v + 1) ≤ w := by
        by_contra hgt
        push_neg at hgt
        have hemp := hbtw w (by omega) hgt
        rw [List.isEmpty_iff] at hemp
        exact hwne hemp
      have huge : w ≤ skipEmptyFrom bs (v + 1) := by
        by_contra hgt
        push_neg at hgt
        have hult : skipEmptyFrom bs (v + 1) < bs.length := by omega
        have h3 := hne hult
        have h4 := hbetween (skipEmptyFrom bs (v + 1)) (by omega) hgt
        rw [h4] at h3
        simp at h3
      have huw : skipEmptyFrom bs (v + 1) = w := le_antisymm hule huge
      simp only [iterator.inc]
      rw [if_neg hvne, if_neg (by simp [h2]), huw, if_pos (by omega)]
    · intro hall
      have hlen1 : v + 1 ≤ bs.length := by omega
      have hueq : skipEmptyFrom bs (v + 1) = bs.length := by
        rcases Nat.lt_or_ge (skipEmptyFrom bs (v + 1)) bs.length with hlt | hgeq
        · exfalso
          have h3 := hne hlt
          have h4 := hall (skipEmptyFrom bs (v + 1)) (by omega) hlt
          rw [h4] at h3
          simp at h3
        · have : skipEmptyFrom bs (v + 1) ≤ max (v + 1) bs.length := hle
          omega
      simp only [iterator.inc]
      rw [if_neg hvne, if_neg (by simp [h2]), hueq, if_neg (by simp)]

/-- C9 witness: in the container with buckets [[10], [], [5, 6]], advancing
from the only element of bucket 0 skips the empty bucket 1 and lands on the
first element of bucket 2. -/
theorem iterator_inc_spec_witness :
    iterator.inc [[10], [], [5, 6]] (iterator.mk 0 0) = iterator.mk 2 0 := by
  refine ((((iterator_inc_spec ([[10], [], [5, 6]] : List (List Nat)) 0 0).2.2
    (by decide)).2 (by decide)).1 2 (by decide) (by decide) (by decide) ?_)
  intro j h1 h2
  have hj : j = 1 := by omega
  subst hj
  rfl

/-- C10: For both iterator types the postfix increment leaves the iterator
it is applied to unchanged and returns an iterator at the same, unadvanced,
position; only the prefix form advances.  The source copies the iterator,
increments only the dummy int parameter (global form) or simply returns
itself (local form). -/
theorem incPost_no_advance (it : iterator) (lit : local_iterator) (p q : Int) :
    (iterator.incPost it p).1 = it ∧
    (iterator.incPost it p).2.1 = it ∧
    (local_iterator.incPost lit q).1 = lit ∧
    (local_iterator.incPost lit q).2.1 = lit :=
  ⟨rfl, rfl, rfl, rfl⟩

end custom

namespace custom

variable {T : Type}

theorem rehash_le (hash : T → Nat) (s : unordered_set T) (n : Nat)
    (h : n ≤ s.bucket_count) : s.rehash hash n = s := by
  rw [unordered_set.rehash, if_pos h]

theorem rehash_gt_buckets (hash : T → Nat) (s : unordered_set T) (n : Nat)
    (h : s.bucket_count < n) :
    (s.rehash hash n).buckets =
      placeAll hash n s.buckets.flatten (List.replicate n []) := by
  rw [unordered_set.rehash, if_neg (by omega)]

theorem rehash_bucket_count (hash : T → Nat) (s : unordered_set T) (n : Nat)
    (h : s.bucket_count < n) : (s.rehash hash n).bucket_count = n := by
  rw [unordered_set.bucket_count, rehash_gt_buckets hash s n h,
    placeAll_length, List.length_replicate]

theorem rehash_numElements (hash : T → Nat) (s : unordered_set T) (n : Nat) :
    (s.rehash hash n).numElements = s.numElements := by
  rw [unordered_set.rehash]
  split <;> rfl

theorem rehash_placed (hash : T → Nat) (s : unordered_set T) (n : Nat)
    (h : s.bucket_count < n) :
    ∀ i e, e ∈ (s.rehash hash n).buckets.getD i [] → hash e % n = i := by
  rw [rehash_gt_buckets hash s n h]
  refine placeAll_placed hash n s.buckets.flatten (List.replicate n []) ?_
  intro i e he
  rw [getD_replicate_nil] at he
  cases he

theorem rehash_flatten_perm (hash : T → Nat) (s : unordered_set T) (n : Nat)
    (h : s.bucket_count < n) :
    (s.rehash hash n).buckets.flatten.Perm s.buckets.flatten := by
  rw [rehash_gt_buckets hash s n h]
  have hperm := placeAll_flatten_perm hash n s.buckets.flatten
    (List.replicate n []) (List.length_replicate _ _) (by omega)
  rwa [flatten_replicate_nil, List.append_nil] at hperm

/-- C6: rehash(n) with n ≤ bucket_count() leaves the set completely
unchanged (no shrink, not an error); with n > bucket_count() the bucket
count becomes n, every element of every bucket i satisfies hash e % n = i,
every element of the set resides in bucket hash e % n, the set contains
exactly the same elements as before, and size() is unchanged. -/
theorem rehash_spec (hash : T → Nat) (s : unordered_set T) (n : Nat) :
    (n ≤ s.bucket_count → s.rehash hash n = s) ∧
    (s.bucket_count < n →
      (s.rehash hash n).bucket_count = n ∧
      (∀ i e, e ∈ (s.rehash hash n).buckets.getD i [] → hash e % n = i) ∧
      (∀ e, e ∈ s.buckets.flatten →
        e ∈ (s.rehash hash n).buckets.getD (hash e % n) []) ∧
      (∀ e, e ∈ (s.rehash hash n).buckets.flatten ↔ e ∈ s.buckets.flatten) ∧
      (s.rehash hash n).size = s.size) := by
  refine ⟨rehash_le hash s n, ?_⟩
  intro h
  have hperm := rehash_flatten_perm hash s n h
  have hplaced := rehash_placed hash s n h
  refine ⟨rehash_bucket_count hash s n h, hplaced, ?_, fun e => hperm.mem_iff,
    rehash_numElements hash s n⟩
  intro e he
  have hmem : e ∈ (s.rehash hash n).buckets.flatten := hperm.mem_iff.mpr he
  obtain ⟨i, hi⟩ := (mem_flatten_getD _ e).mp hmem
  have hieq := hplaced i e hi
  exact hieq ▸ hi

/-- C6 witness: rehashing the 2-bucket container holding 0, 1, 3 to 4
buckets yields 4 buckets, with element 3 relocated to bucket 3 = 3 % 4,
the elements preserved, and size still 3. -/
theorem rehash_spec_witness :
    ((⟨[[0], [1, 3]], 3, 1⟩ : unordered_set Nat).rehash id 4).bucket_count = 4 ∧
    (3 : Nat) ∈
      ((⟨[[0], [1, 3]], 3, 1⟩ : unordered_set Nat).rehash id 4).buckets.getD 3 [] ∧
    ((⟨[[0], [1, 3]], 3, 1⟩ : unordered_set Nat).rehash id 4).size = 3 := by
  have h := (rehash_spec id (⟨[[0], [1, 3]], 3, 1⟩ : unordered_set Nat) 4).2
    (by decide)
  exact ⟨h.1, h.2.2.1 3 (by decide), h.2.2.2.2⟩

/-- C8: reserve(n) computes min_buckets_required(n), the ceiling of
n / maxLoadFactor, and rehashes to it; afterwards the bucket count is at
least that bound, and the container is unchanged when the bound was already
met by the current bucket count. -/
theorem reserve_spec (hash : T → Nat) (s : unordered_set T) (n : Nat) :
    s.min_buckets_required n = (⌈(n : ℚ) / s.maxLoadFactor⌉).toNat ∧
    (s.min_buckets_required n ≤ s.bucket_count → s.reserve hash n = s) ∧
    s.min_buckets_required n ≤ (s.reserve hash n).bucket_count := by
  refine ⟨rfl, ?_, ?_⟩
  · intro h
    rw [unordered_set.reserve]
    exact rehash_le hash s _ h
  · rcases le_or_lt (s.min_buckets_required n) s.bucket_count with h | h
    · rw [unordered_set.reserve, rehash_le hash s _ h]
      exact h
    · rw [unordered_set.reserve, rehash_bucket_count hash s _ h]

/-- C8 witness: reserve(100) on an 8-bucket container with maxLoadFactor
0.75 produces at least 134 = ceil(100 / 0.75) buckets. -/
theorem reserve_spec_witness :
    (134 : Nat) ≤
      ((⟨List.replicate 8 [], 0, 3 / 4⟩ : unordered_set Nat).reserve id 100).bucket_count := by
  have hm : (⟨List.replicate 8 [], 0, 3 / 4⟩ : unordered_set Nat).min_buckets_required 100
      = 134 := by
    rw [unordered_set.min_buckets_required]
    norm_num
    rw [show ⌈(400 : ℚ) / 3⌉ = 134 from by rw [Int.ceil_eq_iff] <;> norm_num]
    rfl
  have h := (reserve_spec id (⟨List.replicate 8 [], 0, 3 / 4⟩ : unordered_set Nat) 100).2.2
  rw [hm] at h
  exact h

end custom

namespace custom

/-- C1: evaluation of insert(5) on the default-constructed container (8
empty buckets, identity hash): the executable code of insert — its intended
body is commented out in the source — leaves the container unchanged, so
size stays 0 and bucket 5 = hash(5) % 8 stays empty, and it returns the
pair (default-constructed iterator, true) instead of an iterator positioned
at a newly appended element with the count incremented. -/
theorem insert_new_value_stub :
    ((unordered_set.mkDefault Nat).insert 5).1 = unordered_set.mkDefault Nat ∧
    ((unordered_set.mkDefault Nat).insert 5).2 = (iterator.dflt, true) ∧
    ((unordered_set.mkDefault Nat).insert 5).1.size = 0 ∧
    ((unordered_set.mkDefault Nat).insert 5).1.buckets.getD 5 [] = [] :=
  ⟨rfl, rfl, rfl, by decide⟩

/-- C2: evaluation of erase(5) on the container whose only element is 5:
the executable code of erase — its intended body is commented out in the
source — leaves the container unchanged (5 is still present and size stays
1) and returns a default-constructed iterator, instead of removing the
element, decrementing the count, and returning the follower iterator. -/
theorem erase_present_stub :
    (s5.erase 5).1 = s5 ∧
    (s5.erase 5).2 = iterator.dflt ∧
    (s5.erase 5).1.size = 1 ∧
    (5 : Nat) ∈ (s5.erase 5).1.buckets.flatten :=
  ⟨rfl, rfl, rfl, by decide⟩

/-- C3: evaluation of the growth scenario: inserting the nine distinct
integers 0..8 into the default-constructed container (8 buckets,
maxLoadFactor 1.0) leaves size() at 0 and the bucket count at 8, because
insert is a stub that stores nothing and never triggers a rehash — the
claim expects size() = 9 and at least 16 buckets. -/
theorem insert_growth_stub :
    ((unordered_set.mkDefault Nat).insertList [0, 1, 2, 3, 4, 5, 6, 7, 8]).size = 0 ∧
    ((unordered_set.mkDefault Nat).insertList [0, 1, 2, 3, 4, 5, 6, 7, 8]).bucket_count = 8 :=
  ⟨rfl, rfl⟩

/-- C4: evaluation of insert(5) on a container already holding 5 (identity
hash): the executable insert does leave the container unchanged, but it
returns the flag true instead of false, and it returns a
default-constructed iterator, which differs from the iterator to the
existing equal element that find(5) produces. -/
theorem insert_duplicate_stub :
    (s5.insert 5).2.2 = true ∧
    (s5.insert 5).2.1 = iterator.dflt ∧
    s5.find id 5 = iterator.mk 5 0 ∧
    (s5.insert 5).2.1 ≠ s5.find id 5 ∧
    (s5.insert 5).1 = s5 :=
  ⟨rfl, rfl, by decide, by decide, rfl⟩

/-- C5: evaluation of load_factor() on a container with 7 elements in 8
buckets: the source divides size() by bucket_count() in size_t arithmetic
before converting to float, so it returns 0, not the 0.875 that
floating-point division of 7 by 8 would give. -/
theorem load_factor_integer_division :
    s7.size = 7 ∧
    s7.bucket_count = 8 ∧
    s7.load_factor = 0 ∧
    (7 : ℚ) / 8 ≠ 0 :=
  ⟨rfl, rfl, rfl, by norm_num⟩

/-- C7: find after an insert: inserting 5 into the default-constructed
container stores nothing (insert is a stub), so find(5) afterwards returns
the end iterator, contradicting the round-trip half of the claim; the
lookup logic of find itself is correct — on the container genuinely holding
5 in bucket 5 it returns the iterator positioned at that element. -/
theorem find_after_insert_stub :
    ((unordered_set.mkDefault Nat).insert 5).1.find id 5
      = ((unordered_set.mkDefault Nat).insert 5).1.endIter ∧
    ((unordered_set.mkDefault Nat).insert 5).1.endIter = iterator.mk 8 0 ∧
    s5.find id 5 = iterator.mk 5 0 ∧
    s5.buckets.getD 5 [] = [5] :=
  ⟨by decide, by decide, by decide, by decide⟩

end custom
